import Mathlib

/-!
Verification of the `exa-search-agent` CLI (`src/cli.ts`).

The tool has two locally interesting components:

* a request builder per subcommand (`search`, `similar`, `contents`,
  `research`, `news`, `papers`) that turns raw option strings into the
  option object passed to the Exa client, and
* a result formatter (`formatResults`) rendering a response either as
  pretty-printed JSON (`JSON.stringify(results, null, 2)`) or as an
  annotated text report.

Strings are modelled as `List Char` (`Str`).  JavaScript platform
primitives that the code relies on (`parseInt`, `JSON.stringify`,
`JSON.parse`, `Date` arithmetic, `toLocaleDateString`) are modelled
explicitly below; each such definition carries a doc comment naming the
primitive it embeds.
-/

namespace ExaSpec

/-- Strings are modelled as lists of characters. -/
abbrev Str := List Char

/-- Converts a Lean string literal to the `List Char` model. -/
def lit (s : String) : Str := s.data

/-- JSON / JavaScript whitespace recognized by `JSON.parse` and by
`parseInt`'s leading trim: space, tab, line feed, carriage return. -/
def isWsJson (c : Char) : Bool :=
  c.toNat = 32 || c.toNat = 9 || c.toNat = 10 || c.toNat = 13

/-- Decimal digit test, by code point. -/
def isDigitCh (c : Char) : Bool :=
  48 ≤ c.toNat && c.toNat ≤ 57

/-- Numeric value of a decimal digit character. -/
def digitVal (c : Char) : Nat := c.toNat - 48

/-- The decimal digit character for `n < 10` (explicit table, so that it
computes by `rfl`). -/
def digitCh (n : Nat) : Char :=
  if n = 0 then '0' else if n = 1 then '1' else if n = 2 then '2'
  else if n = 3 then '3' else if n = 4 then '4' else if n = 5 then '5'
  else if n = 6 then '6' else if n = 7 then '7' else if n = 8 then '8'
  else '9'

/-- Lowercase hexadecimal digit character for `n < 16`, as emitted by
JavaScript's `\u00xx` escapes in `JSON.stringify`. -/
def hexCh (n : Nat) : Char :=
  if n = 0 then '0' else if n = 1 then '1' else if n = 2 then '2'
  else if n = 3 then '3' else if n = 4 then '4' else if n = 5 then '5'
  else if n = 6 then '6' else if n = 7 then '7' else if n = 8 then '8'
  else if n = 9 then '9' else if n = 10 then 'a' else if n = 11 then 'b'
  else if n = 12 then 'c' else if n = 13 then 'd' else if n = 14 then 'e'
  else 'f'

/-- Value of a hexadecimal digit character (upper or lower case), as read
by `JSON.parse` in `\uXXXX` escapes. -/
def hexVal (c : Char) : Option Nat :=
  if 48 ≤ c.toNat ∧ c.toNat ≤ 57 then some (c.toNat - 48)
  else if 97 ≤ c.toNat ∧ c.toNat ≤ 102 then some (c.toNat - 87)
  else if 65 ≤ c.toNat ∧ c.toNat ≤ 70 then some (c.toNat - 55)
  else none

/-- Fuel-driven decimal rendering of a natural number (most significant
digit first).  Structural on the fuel so that it computes by `rfl`. -/
def natToCharsAux : Nat → Nat → Str
  | 0, _ => []
  | fuel + 1, n =>
    if n < 10 then [digitCh n]
    else natToCharsAux fuel (n / 10) ++ [digitCh (n % 10)]

/-- Decimal rendering of a natural number, as JavaScript `ToString`
renders a non-negative integer. -/
def natToChars (n : Nat) : Str := natToCharsAux (n + 1) n

/-- Decimal rendering of an integer, as JavaScript `ToString` renders an
integral number (minus sign followed by digits for negatives). -/
def intToChars (n : Int) : Str :=
  if n < 0 then '-' :: natToChars n.natAbs else natToChars n.toNat

/-- Accumulates the numeric value of a digit string (used both by the
`parseInt` model and by the JSON number parser). -/
def digitsToNat (ds : Str) : Nat :=
  ds.foldl (fun a c => a * 10 + digitVal c) 0

/-- JavaScript `x || y` on an optional string: the default is taken when
the value is `undefined` (absent) or the empty string (falsy). -/
def jsOr (o : Option Str) (d : Str) : Str :=
  match o with
  | none => d
  | some s => if s.isEmpty then d else s

/-- JavaScript truthiness of an optional string: `false` exactly when the
value is absent (`undefined`) or the empty string. -/
def truthyS (o : Option Str) : Bool :=
  match o with
  | none => false
  | some s => !s.isEmpty

/-- Modelled from the spec: JavaScript's global `parseInt` (radix
unspecified), used by every subcommand to read the `num`/`days` option
strings.  It trims leading whitespace, accepts an optional sign, treats a
`0x`/`0X` prefix as hexadecimal, takes the longest digit prefix, and
yields NaN (modelled `none`) when no digit is found. -/
def jsParseInt (s : Str) : Option Int :=
  let t := s.dropWhile isWsJson
  let core : Str → Option Nat := fun u =>
    match u with
    | '0' :: 'x' :: v =>
      let ds := v.takeWhile (fun c => (hexVal c).isSome)
      if ds.isEmpty then none
      else some (ds.foldl (fun a c => a * 16 + (hexVal c).getD 0) 0)
    | '0' :: 'X' :: v =>
      let ds := v.takeWhile (fun c => (hexVal c).isSome)
      if ds.isEmpty then none
      else some (ds.foldl (fun a c => a * 16 + (hexVal c).getD 0) 0)
    | u =>
      let ds := u.takeWhile isDigitCh
      if ds.isEmpty then none else some (digitsToNat ds)
  match t with
  | '-' :: r => (core r).map (fun n => -(n : Int))
  | '+' :: r => (core r).map (fun n => (n : Int))
  | _ => (core t).map (fun n => (n : Int))

/-! ## Result data model (spec section 3, shaped by `formatResults`) -/

/-- One result record as consumed by `formatResults`: `url` is always
present, all other fields are optional. -/
structure ResultItem where
  title : Option Str
  url : Str
  publishedDate : Option Str
  author : Option Str
  summary : Option Str
  text : Option Str

/-- The response object: `results.results` may be absent (the formatter
guards with `results.results?.length || 0` and `results.results || []`). -/
structure SearchResponse where
  results : Option (List ResultItem)

/-! ## Text formatter (`formatResults`, cli.ts lines 31-64) -/

/-- The horizontal rule `"─".repeat(60)` (cli.ts lines 38 and 60). -/
def divider : Str := List.replicate 60 '─'

/-- Replaces every newline by a space: `replace(/\n/g, " ")`
(cli.ts line 56). -/
def collapseNl (s : Str) : Str :=
  s.map fun c => if c = '\n' then ' ' else c

/-- The single body-preview line pushed for a result with text:
`` `${preview}${result.text.length > 300 ? "..." : ""}` `` where
`preview = result.text.slice(0, 300).replace(/\n/g, " ")`
(cli.ts lines 56-57). -/
def previewLine (t : Str) : Str :=
  collapseNl (t.take 300) ++ (if 300 < t.length then lit "..." else [])

/-- The lines pushed for one result item by the loop body of
`formatResults` (cli.ts lines 40-61).  `ld` models the ambient
environment's `d => new Date(d).toLocaleDateString()`. -/
def itemLines (ld : Str → Str) (r : ResultItem) : List Str :=
  [[], lit "📄 " ++ jsOr r.title (lit "Untitled"), lit "🔗 " ++ r.url]
  ++ (if truthyS r.publishedDate then [lit "📅 " ++ ld (r.publishedDate.getD [])] else [])
  ++ (if truthyS r.author then [lit "✍️  " ++ r.author.getD []] else [])
  ++ (if truthyS r.summary then [[], lit "📝 " ++ r.summary.getD []] else [])
  ++ (if truthyS r.text then [[], previewLine (r.text.getD [])] else [])
  ++ [[], divider]

/-- Number of results reported by the header:
`results.results?.length || 0` (cli.ts line 37). -/
def resultCountOf (resp : SearchResponse) : Nat :=
  match resp.results with
  | some l => l.length
  | none => 0

/-- The header line `` `\n🔍 Found ${...} results\n` `` (cli.ts line 37). -/
def headerLine (resp : SearchResponse) : Str :=
  lit "\n🔍 Found " ++ natToChars (resultCountOf resp) ++ lit " results\n"

/-- `lines.join("\n")` (cli.ts line 63). -/
def joinNl (ls : List Str) : Str := List.intercalate ['\n'] ls

/-! ## JSON values and `JSON.stringify(results, null, 2)` -/

/-- Modelled from the spec: the JSON value universe serialized by the
platform's `JSON.stringify` and read back by `JSON.parse` (neither is part
of this repository's sources).  Numbers are restricted to the integral
numerals that actually round-trip through JavaScript's number-to-string
conversion; object member lists model JavaScript objects, whose keys are
distinct. -/
inductive Json where
  | null : Json
  | bool : Bool → Json
  | num : Int → Json
  | strv : Str → Json
  | arr : List Json → Json
  | obj : List (Str × Json) → Json

/-- Escape of one character inside a JSON string, as `JSON.stringify`
performs it: quote and backslash get a backslash escape, the five control
shorthands are used, the remaining control characters become `\u00xx`
(lowercase hex), and every other character is emitted verbatim. -/
def escChar (c : Char) : Str :=
  if c = '"' then ['\\', '"']
  else if c = '\\' then ['\\', '\\']
  else if c = '\x08' then ['\\', 'b']
  else if c = '\x09' then ['\\', 't']
  else if c = '\n' then ['\\', 'n']
  else if c = '\x0c' then ['\\', 'f']
  else if c = '\x0d' then ['\\', 'r']
  else if c.toNat < 32 then
    ['\\', 'u', '0', '0', hexCh (c.toNat / 16), hexCh (c.toNat % 16)]
  else [c]

/-- Escape of a whole string body. -/
def escStr (s : Str) : Str := s.flatMap escChar

/-- A JSON string token: quote, escaped body, quote. -/
def quoteStr (s : Str) : Str := '"' :: escStr s ++ ['"']

/-- Indentation produced by `JSON.stringify(_, null, 2)` at nesting
depth `d`. -/
def indentN (d : Nat) : Str := List.replicate (2 * d) ' '

mutual

/-- `JSON.stringify(v, null, 2)` at nesting depth `d`: the exact text
layout of V8's pretty printer with a two-space gap. -/
def stringifyAt : Nat → Json → Str
  | _, .null => lit "null"
  | _, .bool true => lit "true"
  | _, .bool false => lit "false"
  | _, .num n => intToChars n
  | _, .strv s => quoteStr s
  | _, .arr [] => lit "[]"
  | d, .arr (x :: xs) =>
    '[' :: '\n' :: (indentN (d + 1) ++ stringifyAt (d + 1) x
      ++ stringifyArr (d + 1) xs ++ '\n' :: indentN d ++ [']'])
  | _, .obj [] => lit "{}"
  | d, .obj (kv :: kvs) =>
    '{' :: '\n' :: (indentN (d + 1) ++ quoteStr kv.1 ++ ':' :: ' ' ::
      stringifyAt (d + 1) kv.2
      ++ stringifyObj (d + 1) kvs ++ '\n' :: indentN d ++ ['}'])

/-- Renders the second and later array elements, each preceded by
`",\n"` and the depth-`d` indentation. -/
def stringifyArr : Nat → List Json → Str
  | _, [] => []
  | d, x :: xs =>
    ',' :: '\n' :: (indentN d ++ stringifyAt d x) ++ stringifyArr d xs

/-- Renders the second and later object members, each preceded by
`",\n"` and the depth-`d` indentation. -/
def stringifyObj : Nat → List (Str × Json) → Str
  | _, [] => []
  | d, kv :: kvs =>
    ',' :: '\n' :: (indentN d ++ quoteStr kv.1 ++ ':' :: ' ' ::
      stringifyAt d kv.2) ++ stringifyObj d kvs

end

/-- `JSON.stringify(v, null, 2)` (cli.ts line 33). -/
def stringify2 (j : Json) : Str := stringifyAt 0 j

/-- The JSON value serialized for one result item in JSON output mode
(absent fields are `undefined` and are skipped by `JSON.stringify`). -/
def itemToJson (r : ResultItem) : Json :=
  Json.obj
    ((match r.title with | some t => [(lit "title", Json.strv t)] | none => [])
      ++ [(lit "url", Json.strv r.url)]
      ++ (match r.publishedDate with | some v => [(lit "publishedDate", Json.strv v)] | none => [])
      ++ (match r.author with | some v => [(lit "author", Json.strv v)] | none => [])
      ++ (match r.summary with | some v => [(lit "summary", Json.strv v)] | none => [])
      ++ (match r.text with | some v => [(lit "text", Json.strv v)] | none => []))

/-- The JSON value serialized for the whole response in JSON output
mode. -/
def respToJson (resp : SearchResponse) : Json :=
  Json.obj
    (match resp.results with
     | some l => [(lit "results", Json.arr (l.map itemToJson))]
     | none => [])

/-- `formatResults` (cli.ts lines 31-64).  `ld` models the ambient
environment's locale-sensitive date rendering
`d => new Date(d).toLocaleDateString()` used on line 45. -/
def formatResults (ld : Str → Str) (resp : SearchResponse) (format : Str) : Str :=
  if format = lit "json" then stringify2 (respToJson resp)
  else
    joinNl ([headerLine resp, divider]
      ++ (resp.results.getD []).flatMap (itemLines ld))

/-! ## Request builders and subcommand actions -/

/-- The option bag passed to the Exa client methods.  `numResults = none`
models either an absent key or `parseInt`'s NaN (the only call that omits
the key, `getContents`, never sets it, so the two readings never
collide). -/
structure ApiOptions where
  numResults : Option Int := none
  type : Option Str := none
  startPublishedDate : Option Int := none
  includeDomains : Option (List Str) := none
  text : Bool := false
  summary : Bool := false

/-- The single network call an action issues, with the method chosen by
the code's branching. -/
inductive ApiCall where
  | searchC : Str → ApiOptions → ApiCall
  | searchAndContents : Str → ApiOptions → ApiCall
  | findSimilar : Str → ApiOptions → ApiCall
  | findSimilarAndContents : Str → ApiOptions → ApiCall
  | getContents : List Str → ApiOptions → ApiCall

/-- The option bag of a call. -/
def ApiCall.options : ApiCall → ApiOptions
  | .searchC _ o => o
  | .searchAndContents _ o => o
  | .findSimilar _ o => o
  | .findSimilarAndContents _ o => o
  | .getContents _ o => o

/-- The URL list of a call, when it has one. -/
def ApiCall.urlListOf : ApiCall → Option (List Str)
  | .getContents us _ => some us
  | _ => none

/-- The parsed command-line options delivered by commander to an action
handler (the `SearchOptions` interface, cli.ts lines 21-29).  String
options are `none` when neither the flag nor a declared default supplies
them. -/
structure CliOptions where
  num : Option Str := none
  type : Option Str := none
  contents : Bool := false
  summary : Bool := false
  days : Option Str := none
  domain : Option Str := none
  format : Option Str := none

/-- Modelled from the spec: the date derivation
`const date = new Date(); date.setDate(date.getDate() - parseInt(days));
date.toISOString()` on an abstract integer timeline measured in days.
`now` is the current date; subtracting `k` days yields `now - k`.  When
`parseInt` returns NaN, `setDate(NaN)` invalidates the date and
`toISOString()` throws `RangeError: Invalid time value`, modelled as the
error case. -/
def deriveSince (now : Int) (days : Str) : Except Str Int :=
  match jsParseInt days with
  | some k => .ok (now - k)
  | none => .error (lit "Invalid time value")

/-- The `search` action's request construction (cli.ts lines 86-112):
builds the option bag, optionally derives the date floor and domain list,
and picks `searchAndContents` when contents or summary is requested. -/
def buildSearchCall (now : Int) (q : Str) (o : CliOptions) : Except Str ApiCall :=
  let base : ApiOptions :=
    { numResults := jsParseInt (jsOr o.num (lit "10"))
      type := some (jsOr o.type (lit "auto")) }
  let withDate : Except Str ApiOptions :=
    if truthyS o.days then
      match deriveSince now (o.days.getD []) with
      | .ok dt => .ok { base with startPublishedDate := some dt }
      | .error e => .error e
    else .ok base
  match withDate with
  | .error e => .error e
  | .ok o1 =>
    let o2 := if truthyS o.domain
      then { o1 with includeDomains := some [o.domain.getD []] } else o1
    if o.contents || o.summary then
      .ok (.searchAndContents q { o2 with text := o.contents, summary := o.summary })
    else
      .ok (.searchC q o2)

/-- The `similar` action's request construction (cli.ts lines 131-142). -/
def buildSimilarCall (url : Str) (o : CliOptions) : ApiCall :=
  if o.contents then
    .findSimilarAndContents url
      { numResults := jsParseInt (jsOr o.num (lit "10")), text := true }
  else
    .findSimilar url { numResults := jsParseInt (jsOr o.num (lit "10")) }

/-- The `contents` action's request construction (cli.ts lines 160-163):
`{ text: true }` plus `summary` when the flag is given, with the full URL
argument list passed to one `getContents` call. -/
def buildContentsCall (urls : List Str) (o : CliOptions) : ApiCall :=
  .getContents urls { text := true, summary := o.summary }

/-- The list of network calls the `contents` action issues: exactly the
one `exa.getContents(urls, contentsOptions)` of cli.ts line 163. -/
def contentsCalls (urls : List Str) (o : CliOptions) : List ApiCall :=
  [buildContentsCall urls o]

/-- The `research` action's request construction (cli.ts lines 184-197). -/
def buildResearchCall (now : Int) (topic : Str) (o : CliOptions) : Except Str ApiCall :=
  let base : ApiOptions :=
    { numResults := jsParseInt (jsOr o.num (lit "5"))
      type := some (lit "neural")
      text := true
      summary := true }
  if truthyS o.days then
    match deriveSince now (o.days.getD []) with
    | .ok dt => .ok (.searchAndContents topic { base with startPublishedDate := some dt })
    | .error e => .error e
  else .ok (.searchAndContents topic base)

/-- The `news` action's request construction (cli.ts lines 218-226): the
date floor is always computed, from `options.days || "7"`. -/
def buildNewsCall (now : Int) (topic : Str) (o : CliOptions) : Except Str ApiCall :=
  match deriveSince now (jsOr o.days (lit "7")) with
  | .error e => .error e
  | .ok dt =>
    .ok (.searchAndContents topic
      { numResults := jsParseInt (jsOr o.num (lit "10"))
        type := some (lit "neural")
        startPublishedDate := some dt
        summary := true })

/-- The five-domain academic allow-list of the `papers` subcommand
(cli.ts line 250). -/
def academicDomains : List Str :=
  [lit "arxiv.org", lit "scholar.google.com", lit "semanticscholar.org",
   lit "papers.ssrn.com", lit "researchgate.net"]

/-- The `papers` action's request construction (cli.ts lines 247-252). -/
def buildPapersCall (topic : Str) (o : CliOptions) : ApiCall :=
  .searchAndContents topic
    { numResults := jsParseInt (jsOr o.num (lit "10"))
      type := some (lit "neural")
      includeDomains := some academicDomains
      summary := true }

/-- Commander's declared defaults for the `news` subcommand
(`--num` default `"10"`, `--days` default `"7"`, `--format` default
`"text"`, cli.ts lines 210-212): an absent flag is delivered to the
action as the default string. -/
def newsCliOptions (numFlag daysFlag fmtFlag : Option Str) : CliOptions :=
  { num := some (numFlag.getD (lit "10"))
    days := some (daysFlag.getD (lit "7"))
    format := some (fmtFlag.getD (lit "text")) }

/-! ## Observable output of one action run -/

/-- One line of process output: `out` is `console.log`, `errE` is
`console.error`. -/
inductive Ev where
  | out : Str → Ev
  | errE : Str → Ev

/-- The standard-output lines of an event trace. -/
def stdoutOf (evs : List Ev) : List Str :=
  evs.filterMap fun e =>
    match e with
    | .out s => some s
    | .errE _ => none

/-- The diagnostic `console.error("❌ Error:", error.message)` printed by
every action's catch block. -/
def errLine (msg : Str) : Str := lit "❌ Error: " ++ msg

/-- One run of the `search` action (cli.ts lines 83-119): build the call
(a failed date derivation throws inside the try), issue it through the
collaborator `respond`, and either print the formatted results or the
one-line diagnostic. -/
def runSearch (now : Int) (q : Str) (o : CliOptions) (ld : Str → Str)
    (respond : ApiCall → Except Str SearchResponse) : List Ev :=
  match buildSearchCall now q o with
  | .error e => [.errE (errLine e)]
  | .ok call =>
    match respond call with
    | .error e => [.errE (errLine e)]
    | .ok resp => [.out (formatResults ld resp (o.format.getD (lit "text")))]

/-- One run of the `similar` action (cli.ts lines 129-148). -/
def runSimilar (url : Str) (o : CliOptions) (ld : Str → Str)
    (respond : ApiCall → Except Str SearchResponse) : List Ev :=
  match respond (buildSimilarCall url o) with
  | .error e => [.errE (errLine e)]
  | .ok resp => [.out (formatResults ld resp (o.format.getD (lit "text")))]

/-- One run of the `contents` action (cli.ts lines 157-169). -/
def runContents (urls : List Str) (o : CliOptions) (ld : Str → Str)
    (respond : ApiCall → Except Str SearchResponse) : List Ev :=
  match respond (buildContentsCall urls o) with
  | .error e => [.errE (errLine e)]
  | .ok resp => [.out (formatResults ld resp (o.format.getD (lit "text")))]

/-- The progress banner `` `🔬 Researching: ${topic}...\n` `` printed by
the `research` action before its network call (cli.ts line 182). -/
def researchBanner (topic : Str) : Str :=
  lit "🔬 Researching: " ++ topic ++ lit "...\n"

/-- One run of the `research` action (cli.ts lines 179-203): the banner
is printed inside the try block before the call. -/
def runResearch (now : Int) (topic : Str) (o : CliOptions) (ld : Str → Str)
    (respond : ApiCall → Except Str SearchResponse) : List Ev :=
  .out (researchBanner topic) ::
    match buildResearchCall now topic o with
    | .error e => [.errE (errLine e)]
    | .ok call =>
      match respond call with
      | .error e => [.errE (errLine e)]
      | .ok resp => [.out (formatResults ld resp (o.format.getD (lit "text")))]

/-- The progress banner `` `📰 Searching news: ${topic}...\n` `` printed
by the `news` action before its network call (cli.ts line 216). -/
def newsBanner (topic : Str) : Str :=
  lit "📰 Searching news: " ++ topic ++ lit "...\n"

/-- One run of the `news` action (cli.ts lines 213-233). -/
def runNews (now : Int) (topic : Str) (o : CliOptions) (ld : Str → Str)
    (respond : ApiCall → Except Str SearchResponse) : List Ev :=
  .out (newsBanner topic) ::
    match buildNewsCall now topic o with
    | .error e => [.errE (errLine e)]
    | .ok call =>
      match respond call with
      | .error e => [.errE (errLine e)]
      | .ok resp => [.out (formatResults ld resp (o.format.getD (lit "text")))]

/-- The progress banner `` `📚 Searching papers: ${topic}...\n` ``
printed by the `papers` action before its network call (cli.ts
line 245). -/
def papersBanner (topic : Str) : Str :=
  lit "📚 Searching papers: " ++ topic ++ lit "...\n"

/-- One run of the `papers` action (cli.ts lines 242-259). -/
def runPapers (topic : Str) (o : CliOptions) (ld : Str → Str)
    (respond : ApiCall → Except Str SearchResponse) : List Ev :=
  .out (papersBanner topic) ::
    match respond (buildPapersCall topic o) with
    | .error e => [.errE (errLine e)]
    | .ok resp => [.out (formatResults ld resp (o.format.getD (lit "text")))]

/-! ## `JSON.parse` -/

/-- Skips JSON whitespace. -/
def skipWs (s : Str) : Str := s.dropWhile isWsJson

/-- Consumes an expected literal character sequence. -/
def expectChars : Str → Str → Option Str
  | [], r => some r
  | c :: cs, d :: r => if c = d then expectChars cs r else none
  | _ :: _, [] => none

/-- Reads four hexadecimal digits (the payload of a `\uXXXX` escape). -/
def readHex4 : Str → Option (Nat × Str)
  | h1 :: h2 :: h3 :: h4 :: r =>
    match hexVal h1, hexVal h2, hexVal h3, hexVal h4 with
    | some a, some b, some c1, some d1 =>
      some (4096 * a + 256 * b + 16 * c1 + d1, r)
    | _, _, _, _ => none
  | _ => none

/-- Reading four hex digits consumes exactly four characters. -/
theorem readHex4_len : ∀ s n r, readHex4 s = some (n, r) →
    r.length + 4 = s.length := by
  intro s n r h
  match s with
  | h1 :: h2 :: h3 :: h4 :: r0 =>
    simp only [readHex4] at h
    split at h
    · simp only [Option.some.injEq, Prod.mk.injEq] at h
      rw [← h.2]
      simp
    · exact absurd h (by simp)
  | [] => exact absurd h (by simp [readHex4])
  | [h1] => exact absurd h (by simp [readHex4])
  | [h1, h2] => exact absurd h (by simp [readHex4])
  | [h1, h2, h3] => exact absurd h (by simp [readHex4])

mutual

/-- Parses the body of a JSON string after the opening quote, undoing
the escapes of `JSON.stringify`; returns the decoded string and the
input after the closing quote. -/
def parseStrBody : Str → Option (Str × Str)
  | [] => none
  | c :: r =>
    if c = '"' then some ([], r)
    else if c = '\\' then parseEsc r
    else (parseStrBody r).map (fun p => (c :: p.1, p.2))
termination_by s => s.length
decreasing_by
  all_goals simp_wf
  all_goals omega

/-- Parses the remainder of a string body after a backslash. -/
def parseEsc : Str → Option (Str × Str)
  | [] => none
  | e :: r2 =>
    if e = '"' then (parseStrBody r2).map (fun p => ('"' :: p.1, p.2))
    else if e = '\\' then (parseStrBody r2).map (fun p => ('\\' :: p.1, p.2))
    else if e = '/' then (parseStrBody r2).map (fun p => ('/' :: p.1, p.2))
    else if e = 'b' then (parseStrBody r2).map (fun p => ('\x08' :: p.1, p.2))
    else if e = 'f' then (parseStrBody r2).map (fun p => ('\x0c' :: p.1, p.2))
    else if e = 'n' then (parseStrBody r2).map (fun p => ('\n' :: p.1, p.2))
    else if e = 'r' then (parseStrBody r2).map (fun p => ('\x0d' :: p.1, p.2))
    else if e = 't' then (parseStrBody r2).map (fun p => ('\x09' :: p.1, p.2))
    else if e = 'u' then
      match h : readHex4 r2 with
      | some (code, r3) =>
        (parseStrBody r3).map (fun p => (Char.ofNat code :: p.1, p.2))
      | none => none
    else none
termination_by s => s.length
decreasing_by
  all_goals simp_wf
  all_goals first
  | omega
  | (have hlen4 := readHex4_len _ _ _ h; omega)

end

/-- Parses a leading run of decimal digits as a natural number. -/
def parseNatTok (s : Str) : Option (Nat × Str) :=
  let ds := s.takeWhile isDigitCh
  if ds.isEmpty then none else some (digitsToNat ds, s.dropWhile isDigitCh)

/-- Parses a JSON integer numeral (optional minus sign, digit run). -/
def parseIntTok : Str → Option (Int × Str)
  | [] => none
  | c :: r =>
    if c = '-' then (parseNatTok r).map (fun p => (-(p.1 : Int), p.2))
    else (parseNatTok (c :: r)).map (fun p => ((p.1 : Int), p.2))

mutual

/-- Modelled from the spec: `JSON.parse` (a platform primitive, not part
of this repository's sources), on the fragment of JSON texts produced by
the serializer above: integral numerals, and objects read as ordered
member lists (a JavaScript object cannot carry duplicate keys, so on
serializer output the ordered reading agrees with `JSON.parse`).  The
first argument is recursion fuel. -/
def parseVal : Nat → Str → Option (Json × Str)
  | 0, _ => none
  | fuel + 1, input =>
    match skipWs input with
    | [] => none
    | c :: r =>
      if c = 'n' then (expectChars (lit "ull") r).map (fun r2 => (Json.null, r2))
      else if c = 't' then (expectChars (lit "rue") r).map (fun r2 => (Json.bool true, r2))
      else if c = 'f' then (expectChars (lit "alse") r).map (fun r2 => (Json.bool false, r2))
      else if c = '"' then (parseStrBody r).map (fun p => (Json.strv p.1, p.2))
      else if c = '[' then
        match skipWs r with
        | [] => none
        | c2 :: r2 =>
          if c2 = ']' then some (Json.arr [], r2)
          else (parseElems fuel (c2 :: r2)).map (fun p => (Json.arr p.1, p.2))
      else if c = '{' then
        match skipWs r with
        | [] => none
        | c2 :: r2 =>
          if c2 = '}' then some (Json.obj [], r2)
          else (parseMembers fuel (c2 :: r2)).map (fun p => (Json.obj p.1, p.2))
      else if c = '-' || isDigitCh c then
        (parseIntTok (c :: r)).map (fun p => (Json.num p.1, p.2))
      else none

/-- Parses a non-empty array element list up to and including the
closing bracket. -/
def parseElems : Nat → Str → Option (List Json × Str)
  | 0, _ => none
  | fuel + 1, s =>
    match parseVal fuel s with
    | none => none
    | some (j, r) =>
      match skipWs r with
      | [] => none
      | c :: r2 =>
        if c = ',' then (parseElems fuel r2).map (fun p => (j :: p.1, p.2))
        else if c = ']' then some ([j], r2)
        else none

/-- Parses a non-empty object member list up to and including the
closing brace. -/
def parseMembers : Nat → Str → Option (List (Str × Json) × Str)
  | 0, _ => none
  | fuel + 1, s =>
    match skipWs s with
    | [] => none
    | c :: r =>
      if c = '"' then
        match parseStrBody r with
        | none => none
        | some (k, r1) =>
          match skipWs r1 with
          | [] => none
          | c2 :: r2 =>
            if c2 = ':' then
              match parseVal fuel r2 with
              | none => none
              | some (v, r3) =>
                match skipWs r3 with
                | [] => none
                | c3 :: r4 =>
                  if c3 = ',' then
                    (parseMembers fuel r4).map (fun p => ((k, v) :: p.1, p.2))
                  else if c3 = '}' then some ([(k, v)], r4)
                  else none
            else none
      else none

end

/-- `JSON.parse` on a whole text: parse one value with ample fuel and
require only trailing whitespace. -/
def jsonParse (s : Str) : Option Json :=
  match parseVal (2 * s.length + 2) s with
  | some (j, r) => if (skipWs r).isEmpty then some j else none
  | none => none

mutual

/-- Node count of a JSON value, used to bound the parser fuel. -/
def sizeJ : Json → Nat
  | .null => 1
  | .bool _ => 1
  | .num _ => 1
  | .strv _ => 1
  | .arr xs => 1 + sizeArr xs
  | .obj kvs => 1 + sizeObj kvs

/-- Summed node count of an element list (one extra per element). -/
def sizeArr : List Json → Nat
  | [] => 0
  | x :: xs => 1 + sizeJ x + sizeArr xs

/-- Summed node count of a member list (one extra per member). -/
def sizeObj : List (Str × Json) → Nat
  | [] => 0
  | kv :: kvs => 1 + sizeJ kv.2 + sizeObj kvs

end

mutual

/-- Well-formedness of a JSON value as the image of a JavaScript value:
every object's keys are pairwise distinct (a JavaScript object cannot
hold two properties with the same key). -/
def wfJ : Json → Bool
  | .null => true
  | .bool _ => true
  | .num _ => true
  | .strv _ => true
  | .arr xs => wfArrL xs
  | .obj kvs => wfObjL kvs

/-- Well-formedness of every element of a list. -/
def wfArrL : List Json → Bool
  | [] => true
  | x :: xs => wfJ x && wfArrL xs

/-- Well-formedness of a member list: values well-formed and the head
key absent from the tail. -/
def wfObjL : List (Str × Json) → Bool
  | [] => true
  | kv :: kvs => wfJ kv.2 && kvs.all (fun kv2 => !(kv2.1 == kv.1)) && wfObjL kvs

end

/-! ## Claim theorems -/

/-- C5: invoking `news` with no `days` flag builds a request whose
`startPublishedDate` is now minus 7 days (the default offset is always
computed), with mode `"neural"`, `includeSummary` true and
`resultCount` 10. -/
theorem news_default_request (now : Int) (topic : Str) :
    buildNewsCall now topic (newsCliOptions none none none) =
      .ok (ApiCall.searchAndContents topic
        { numResults := some 10
          type := some (lit "neural")
          startPublishedDate := some (now - 7)
          summary := true }) := rfl

/-- C6: for every invocation of `papers`, whatever other flags are
supplied, the built request's domain filter is verbatim the five-domain
academic allow-list, with mode `"neural"` and `includeSummary` true. -/
theorem papers_fixed_domains (topic : Str) (o : CliOptions) :
    (buildPapersCall topic o).options.includeDomains = some academicDomains
    ∧ academicDomains =
        [lit "arxiv.org", lit "scholar.google.com", lit "semanticscholar.org",
         lit "papers.ssrn.com", lit "researchgate.net"]
    ∧ (buildPapersCall topic o).options.type = some (lit "neural")
    ∧ (buildPapersCall topic o).options.summary = true :=
  ⟨rfl, rfl, rfl, rfl⟩

/-- C7: the `contents` action issues exactly one call covering all URL
arguments in order, with `includeText` unconditionally true and
`includeSummary` equal to the summary flag. -/
theorem contents_single_call (urls : List Str) (o : CliOptions) :
    contentsCalls urls o =
      [ApiCall.getContents urls { text := true, summary := o.summary }]
    ∧ (contentsCalls urls o).length = 1
    ∧ (buildContentsCall urls o).urlListOf = some urls
    ∧ (buildContentsCall urls o).options.text = true
    ∧ (buildContentsCall urls o).options.summary = o.summary :=
  ⟨rfl, rfl, rfl, rfl, rfl⟩

/-- C10: a present-but-empty title renders the `"Untitled"` fallback
exactly as an absent title does: `result.title || "Untitled"` triggers on
falsiness, and the rendered item lines coincide with the absent-title
case. -/
theorem empty_title_untitled_fallback (ld : Str → Str) (u : Str)
    (pd au su tx : Option Str) :
    jsOr (some []) (lit "Untitled") = lit "Untitled"
    ∧ lit "📄 " ++ jsOr (some []) (lit "Untitled") ∈
        itemLines ld ⟨some [], u, pd, au, su, tx⟩
    ∧ itemLines ld ⟨some [], u, pd, au, su, tx⟩ =
        itemLines ld ⟨none, u, pd, au, su, tx⟩ := by
  refine ⟨rfl, ?_, ?_⟩
  · simp [itemLines]
  · simp [itemLines, jsOr]

/-- A response with one undated item, used to instantiate the amended
purity theorem. -/
def respNoDate : SearchResponse :=
  ⟨some [⟨none, lit "u", none, none, none, none⟩]⟩

/-- The empty string parses to NaN. -/
theorem jsParseInt_nil : jsParseInt [] = none := rfl

/-- An absent option string is falsy. -/
@[simp] theorem truthyS_none : truthyS none = false := rfl

/-- A string that parses is not empty, so `x || dflt` keeps it. -/
theorem jsOr_of_parses {s : Str} {n : Int} (hp : jsParseInt s = some n)
    (d : Str) : jsOr (some s) d = s := by
  have hne : s ≠ [] := by
    intro he
    rw [he, jsParseInt_nil] at hp
    exact Option.noConfusion hp
  simp [jsOr, List.isEmpty_iff, hne]

/-- C9: an empty or absent result collection yields exactly the
zero-results header followed by a single divider rule and no item
blocks. -/
theorem empty_results_header_only (ld : Str → Str) (resp : SearchResponse)
    (h : resp.results = none ∨ resp.results = some []) :
    formatResults ld resp (lit "text") =
      lit "\n🔍 Found 0 results\n" ++ '\n' :: divider := by
  obtain ⟨rs⟩ := resp
  rcases h with h | h <;> (simp only [SearchResponse.mk.injEq] at h; subst h; rfl)

/-- Witness for C9 at a concrete empty response. -/
theorem empty_results_header_only_witness :
    ((⟨some []⟩ : SearchResponse).results = none
      ∨ (⟨some []⟩ : SearchResponse).results = some [])
    ∧ formatResults (fun s => s) ⟨some []⟩ (lit "text") =
        lit "\n🔍 Found 0 results\n" ++ '\n' :: divider :=
  ⟨Or.inr rfl, empty_results_header_only (fun s => s) ⟨some []⟩ (Or.inr rfl)⟩

/-- C3: for a result with (truthy) text, the emitted body preview is the
first 300 characters of the text with newlines collapsed to spaces,
followed by an ellipsis marker exactly when the text exceeds 300
characters; at 301 characters the marker appears, at 300 it does not. -/
theorem text_preview_truncation (ld : Str → Str) (r : ResultItem) (t : Str)
    (h : r.text = some t) (hne : t ≠ []) :
    previewLine t ∈ itemLines ld r
    ∧ previewLine t =
        (collapseNl t).take 300 ++ (if 300 < t.length then lit "..." else [])
    ∧ (t.length = 301 → previewLine t = (collapseNl t).take 300 ++ lit "...")
    ∧ (t.length = 300 → previewLine t = collapseNl t) := by
  have hmap : collapseNl (t.take 300) = (collapseNl t).take 300 :=
    List.map_take _ _ _
  have hform : previewLine t =
      (collapseNl t).take 300 ++ (if 300 < t.length then lit "..." else []) := by
    unfold previewLine
    rw [hmap]
  refine ⟨?_, hform, ?_, ?_⟩
  · have htr : truthyS (some t) = true := by
      simp [truthyS, List.isEmpty_iff, hne]
    simp [itemLines, h, htr]
  · intro h301
    rw [hform, if_pos (by omega)]
  · intro h300
    rw [hform, if_neg (by omega)]
    have hlen : (collapseNl t).length ≤ 300 := by
      simp [collapseNl, h300]
    rw [List.take_of_length_le hlen, List.append_nil]

/-- Witness for C3 at a concrete one-character text. -/
theorem text_preview_truncation_witness :
    (⟨none, lit "u", none, none, none, some (lit "a")⟩ : ResultItem).text
        = some (lit "a")
    ∧ lit "a" ≠ ([] : Str)
    ∧ previewLine (lit "a") ∈
        itemLines (fun s => s) ⟨none, lit "u", none, none, none, some (lit "a")⟩ :=
  ⟨rfl, by decide,
    (text_preview_truncation (fun s => s) _ _ rfl (by decide)).1⟩

/-- C1 (amended): the builder never rejects numeric option strings; it
applies `parseInt` semantics.  Whenever the `num` option parses to an
integer `n` (in particular every positive integer), the built request's
`resultCount` is exactly `n` — for `search` and for `papers` alike —
and no failure is raised on non-numeric or non-positive strings. -/
theorem num_option_parseInt_passthrough (now : Int) (q : Str)
    (o : CliOptions) (s : Str) (n : Int) (hs : o.num = some s)
    (hp : jsParseInt s = some n) (hd : o.days = none) :
    (∃ call, buildSearchCall now q o = .ok call
      ∧ call.options.numResults = some n)
    ∧ (buildPapersCall q o).options.numResults = some n := by
  constructor
  · unfold buildSearchCall
    rw [hs, hd]
    simp only [truthyS_none, Bool.false_eq_true, if_false,
      jsOr_of_parses hp, hp]
    by_cases hdom : truthyS o.domain <;>
      by_cases hcs : (o.contents || o.summary) = true <;>
        simp [hdom, hcs, ApiCall.options]
  · unfold buildPapersCall
    rw [hs]
    simp [jsOr_of_parses hp, hp, ApiCall.options]

/-- Witness for the amended C1 at `num = "7"`. -/
theorem num_option_parseInt_passthrough_witness :
    ({ num := some (lit "7") } : CliOptions).num = some (lit "7")
    ∧ jsParseInt (lit "7") = some 7
    ∧ ({ num := some (lit "7") } : CliOptions).days = none
    ∧ ((∃ call, buildSearchCall 0 (lit "q") { num := some (lit "7") } = .ok call
          ∧ call.options.numResults = some 7)
        ∧ (buildPapersCall (lit "q") { num := some (lit "7") }).options.numResults
            = some 7) :=
  ⟨rfl, rfl, rfl,
    num_option_parseInt_passthrough 0 (lit "q") _ (lit "7") 7 rfl rfl rfl⟩

/-- C1 counterexample: on `num = "0"`, `num = "abc"` and `num = "-5"`
the `search` builder does not fail with InvalidArgument — it succeeds,
passing through `0`, NaN and `-5` respectively as the result count. -/
theorem num_option_no_validation_cex :
    buildSearchCall 0 (lit "q") { num := some (lit "0") } =
      .ok (ApiCall.searchC (lit "q")
        { numResults := some 0, type := some (lit "auto") })
    ∧ buildSearchCall 0 (lit "q") { num := some (lit "abc") } =
      .ok (ApiCall.searchC (lit "q")
        { numResults := none, type := some (lit "auto") })
    ∧ buildSearchCall 0 (lit "q") { num := some (lit "-5") } =
      .ok (ApiCall.searchC (lit "q")
        { numResults := some (-5), type := some (lit "auto") }) :=
  ⟨rfl, rfl, rfl⟩

/-- C2 (amended): when the external call fails, `search`, `similar` and
`contents` print nothing to standard output (only the diagnostic goes to
the error stream), while `research`, `news` and `papers` have already
printed exactly their one-line progress banner — and nothing else — to
standard output. -/
theorem failure_output_discipline (now : Int) (q url topic : Str)
    (urls : List Str) (o : CliOptions) (ld : Str → Str) (msg : Str) :
    stdoutOf (runSearch now q o ld (fun _ => .error msg)) = []
    ∧ stdoutOf (runSimilar url o ld (fun _ => .error msg)) = []
    ∧ stdoutOf (runContents urls o ld (fun _ => .error msg)) = []
    ∧ stdoutOf (runResearch now topic o ld (fun _ => .error msg)) =
        [researchBanner topic]
    ∧ stdoutOf (runNews now topic o ld (fun _ => .error msg)) =
        [newsBanner topic]
    ∧ stdoutOf (runPapers topic o ld (fun _ => .error msg)) =
        [papersBanner topic] := by
  refine ⟨?_, rfl, rfl, ?_, ?_, rfl⟩
  · cases h : buildSearchCall now q o <;> simp [runSearch, stdoutOf, h]
  · cases h : buildResearchCall now topic o <;>
      simp [runResearch, stdoutOf, h]
  · cases h : buildNewsCall now topic o <;> simp [runNews, stdoutOf, h]

/-- C2 counterexample: a failing `news` call still leaves the progress
banner on standard output, so the run prints partial normal output that
is neither a full formatted result set nor only the diagnostic. -/
theorem news_banner_precedes_failure_cex :
    stdoutOf (runNews 0 (lit "x") (newsCliOptions none none none)
        (fun s => s) (fun _ => .error (lit "fetch failed"))) =
      [newsBanner (lit "x")]
    ∧ newsBanner (lit "x") ≠ [] :=
  ⟨rfl, by decide⟩

/-- A response with one item that carries a published date, used to
exhibit locale dependence of the text formatter. -/
def respWithDate : SearchResponse :=
  ⟨some [⟨none, lit "u", some (lit "2026-01-02T00:00:00.000Z"),
    none, none, none⟩]⟩

/-- C4 counterexample: the text formatter's output depends on the
ambient locale — two locale renderings of `toLocaleDateString` yield
different outputs for the same well-formed input. -/
theorem formatter_locale_dependent_cex :
    formatResults (fun _ => lit "1/2/2026") respWithDate (lit "text") ≠
      formatResults (fun _ => lit "02/01/2026") respWithDate (lit "text") := by
  decide

/-- C4 (amended): formatting is a deterministic total function of the
response and the ambient locale's date renderer; it cannot mutate its
input and never fails, missing optional fields are skipped, and the
output is locale-independent whenever no item carries a (truthy)
published date — but not in general. -/
theorem formatter_pure_modulo_locale (ld1 ld2 : Str → Str)
    (resp : SearchResponse) (fmt : Str)
    (h : ∀ r ∈ resp.results.getD [], truthyS r.publishedDate = false) :
    formatResults ld1 resp fmt = formatResults ld2 resp fmt
    ∧ (∀ u, itemLines ld1 ⟨none, u, none, none, none, none⟩ =
        [[], lit "📄 Untitled", lit "🔗 " ++ u, [], divider]) := by
  constructor
  · unfold formatResults
    by_cases hf : fmt = lit "json"
    · simp [hf]
    · have hfl : (resp.results.getD []).flatMap (itemLines ld1) =
          (resp.results.getD []).flatMap (itemLines ld2) := by
        refine List.flatMap_congr fun r hr => ?_
        simp [itemLines, h r hr]
      simp only [hf, if_false, hfl]
  · intro u
    simp [itemLines, jsOr, truthyS]
    decide

/-! ## Round-trip lemmas: characters and numerals -/

/-- Rebuilding a character from its own code point is the identity. -/
theorem charOfNatToNat (c : Char) : Char.ofNat c.toNat = c := by
  have hv : c.toNat.isValidChar := by
    have := c.valid
    unfold UInt32.isValidChar at this
    exact this
  unfold Char.ofNat
  rw [dif_pos hv]
  unfold Char.ofNatAux
  apply Char.ext
  apply UInt32.ext
  simp [Char.toNat, UInt32.toNat]

/-- Characters with different code points differ. -/
theorem chNe {c d : Char} (h : c.toNat ≠ d.toNat) : c ≠ d :=
  fun he => h (congrArg Char.toNat he)

/-- Whitespace is never a digit. -/
theorem ws_not_digit {c : Char} (h : isWsJson c = true) :
    isDigitCh c = false := by
  simp [isWsJson] at h
  simp [isDigitCh]
  omega

/-- The digit table produces digits. -/
theorem isDigitCh_digitCh {n : Nat} (h : n < 10) :
    isDigitCh (digitCh n) = true := by
  interval_cases n <;> decide

/-- The digit table is inverted by `digitVal`. -/
theorem digitVal_digitCh {n : Nat} (h : n < 10) :
    digitVal (digitCh n) = n := by
  interval_cases n <;> decide

/-- The hex digit table is inverted by `hexVal`. -/
theorem hexVal_hexCh {n : Nat} (h : n < 16) :
    hexVal (hexCh n) = some n := by
  interval_cases n <;> decide

/-- The fuel of the numeral renderer is irrelevant once sufficient. -/
theorem natToCharsAux_congr :
    ∀ f1 f2 n, n < f1 → n < f2 → natToCharsAux f1 n = natToCharsAux f2 n := by
  intro f1
  induction f1 with
  | zero => omega
  | succ g ih =>
    intro f2 n h1 h2
    match f2, h2 with
    | f2' + 1, _ =>
      by_cases hn : n < 10
      · simp [natToCharsAux, hn]
      · have hd : n / 10 < n := Nat.div_lt_self (by omega) (by omega)
        simp only [natToCharsAux, hn, if_false]
        rw [ih f2' (n / 10) (by omega) (by omega)]

/-- One-step unfolding of the decimal renderer. -/
theorem natToChars_step (n : Nat) :
    natToChars n =
      if n < 10 then [digitCh n]
      else natToChars (n / 10) ++ [digitCh (n % 10)] := by
  by_cases hn : n < 10
  · simp [natToChars, natToCharsAux, hn]
  · have hd : n / 10 < n := Nat.div_lt_self (by omega) (by omega)
    rw [if_neg hn]
    show natToCharsAux (n + 1) n = _
    rw [show natToCharsAux (n + 1) n
        = natToCharsAux n (n / 10) ++ [digitCh (n % 10)] from by
      rw [natToCharsAux, if_neg hn]]
    rw [natToCharsAux_congr n (n / 10 + 1) (n / 10) (by omega) (by omega)]
    rfl

/-- The decimal rendering starts with a digit. -/
theorem natToChars_head (n : Nat) :
    ∃ c t, natToChars n = c :: t ∧ isDigitCh c = true := by
  induction n using Nat.strong_induction_on with
  | _ n ih =>
    rw [natToChars_step]
    by_cases hn : n < 10
    · exact ⟨digitCh n, [], by simp [hn], isDigitCh_digitCh hn⟩
    · obtain ⟨c, t, hct, hc⟩ :=
        ih (n / 10) (Nat.div_lt_self (by omega) (by omega))
      exact ⟨c, t ++ [digitCh (n % 10)], by simp [hn, hct], hc⟩

/-- Every character of the decimal rendering is a digit. -/
theorem natToChars_all_digits (n : Nat) :
    ∀ c ∈ natToChars n, isDigitCh c = true := by
  induction n using Nat.strong_induction_on with
  | _ n ih =>
    rw [natToChars_step]
    by_cases hn : n < 10
    · simp only [hn, if_true, List.mem_singleton]
      intro c hc
      subst hc
      exact isDigitCh_digitCh hn
    · simp only [hn, if_false, List.mem_append, List.mem_singleton]
      rintro c (hc | hc)
      · exact ih (n / 10) (Nat.div_lt_self (by omega) (by omega)) c hc
      · subst hc
        exact isDigitCh_digitCh (Nat.mod_lt _ (by omega))

/-- Reading back the decimal digits recovers the number. -/
theorem digitsToNat_natToChars (n : Nat) :
    digitsToNat (natToChars n) = n := by
  induction n using Nat.strong_induction_on with
  | _ n ih =>
    rw [natToChars_step]
    by_cases hn : n < 10
    · simp [hn, digitsToNat, digitVal_digitCh hn]
    · simp only [hn, if_false, digitsToNat, List.foldl_append, List.foldl_cons,
        List.foldl_nil]
      have := ih (n / 10) (Nat.div_lt_self (by omega) (by omega))
      unfold digitsToNat at this
      rw [this, digitVal_digitCh (Nat.mod_lt _ (by omega))]
      omega

/-- The first character of the input is not a decimal digit (trivially
true of the empty input). -/
def headNotDigit : Str → Prop
  | [] => True
  | c :: _ => isDigitCh c = false

/-- Splitting a digit run followed by a non-digit. -/
theorem takeWhile_digits_append {ds rest : Str}
    (h1 : ∀ c ∈ ds, isDigitCh c = true) (h2 : headNotDigit rest) :
    (ds ++ rest).takeWhile isDigitCh = ds
    ∧ (ds ++ rest).dropWhile isDigitCh = rest := by
  induction ds with
  | nil =>
    cases rest with
    | nil => simp
    | cons c r =>
      unfold headNotDigit at h2
      simp [List.takeWhile_cons, List.dropWhile_cons, h2]
  | cons c cs ih =>
    have hc : isDigitCh c = true := h1 c (by simp)
    have := ih (fun c hc2 => h1 c (by simp [hc2]))
    simp [List.takeWhile_cons, List.dropWhile_cons, hc, this.1, this.2]

/-- The digit-run parser reads exactly a rendered natural number. -/
theorem parseNatTok_spec (n : Nat) (rest : Str) (h2 : headNotDigit rest) :
    parseNatTok (natToChars n ++ rest) = some (n, rest) := by
  obtain ⟨hc, hd⟩ := takeWhile_digits_append (natToChars_all_digits n) h2
  obtain ⟨c0, t0, hh, _⟩ := natToChars_head n
  simp only [parseNatTok]
  rw [hc, hd]
  have hne : (natToChars n).isEmpty = false := by rw [hh]; rfl
  rw [hne, if_neg (by simp), digitsToNat_natToChars]

/-- A minus sign is not a digit. -/
theorem minus_not_digit : isDigitCh '-' = false := by decide

/-- The integer-token parser reads exactly a rendered integer. -/
theorem parseIntTok_spec (n : Int) (rest : Str) (h2 : headNotDigit rest) :
    parseIntTok (intToChars n ++ rest) = some (n, rest) := by
  by_cases hn : n < 0
  · have he : intToChars n = '-' :: natToChars n.natAbs := by
      unfold intToChars
      rw [if_pos hn]
    rw [he]
    simp only [List.cons_append, parseIntTok, if_pos rfl]
    rw [parseNatTok_spec n.natAbs rest h2]
    have hval : -((n.natAbs : Int)) = n := by omega
    show some (-((n.natAbs : Int)), rest) = some (n, rest)
    rw [hval]
  · have he : intToChars n = natToChars n.toNat := by
      unfold intToChars
      rw [if_neg hn]
    have hne : ('-').toNat = 45 := rfl
    obtain ⟨c0, t0, hh, hdg⟩ := natToChars_head n.toNat
    have hcne : c0 ≠ '-' := by
      refine chNe ?_
      rw [hne]
      simp [isDigitCh] at hdg
      omega
    rw [he, hh, List.cons_append, parseIntTok, if_neg hcne,
      ← List.cons_append, ← hh, parseNatTok_spec n.toNat rest h2]
    have hval : ((n.toNat : Int)) = n := by omega
    show some (((n.toNat : Int)), rest) = some (n, rest)
    rw [hval]

/-! ## Round-trip lemmas: strings and whitespace -/

/-- Reading back an escaped string body recovers the original string and
leaves the input after the closing quote untouched. -/
theorem parseStrBody_escape (s rest : Str) :
    parseStrBody (escStr s ++ '"' :: rest) = some (s, rest) := by
  induction s with
  | nil =>
    rw [show escStr [] ++ '"' :: rest = '"' :: rest from rfl, parseStrBody,
      if_pos rfl]
  | cons c s ih =>
    have hesc : escStr (c :: s) = escChar c ++ escStr s := by
      simp [escStr]
    rw [hesc, List.append_assoc]
    by_cases h1 : c = '"'
    · subst h1
      rw [show escChar '"' = ['\\', '"'] from rfl]
      simp only [List.cons_append, List.nil_append]
      rw [parseStrBody, if_neg (by decide), if_pos rfl, parseEsc, if_pos rfl,
        ih]
      rfl
    · by_cases h2 : c = '\\'
      · subst h2
        rw [show escChar '\\' = ['\\', '\\'] from rfl]
        simp only [List.cons_append, List.nil_append]
        rw [parseStrBody, if_neg (by decide), if_pos rfl, parseEsc,
          if_neg (by decide), if_pos rfl, ih]
        rfl
      · by_cases h3 : c = '\x08'
        · subst h3
          rw [show escChar '\x08' = ['\\', 'b'] from rfl]
          simp only [List.cons_append, List.nil_append]
          rw [parseStrBody, if_neg (by decide), if_pos rfl, parseEsc,
            if_neg (by decide), if_neg (by decide), if_neg (by decide),
            if_pos rfl, ih]
          rfl
        · by_cases h4 : c = '\x09'
          · subst h4
            rw [show escChar '\x09' = ['\\', 't'] from rfl]
            simp only [List.cons_append, List.nil_append]
            rw [parseStrBody, if_neg (by decide), if_pos rfl, parseEsc,
              if_neg (by decide), if_neg (by decide), if_neg (by decide),
              if_neg (by decide), if_neg (by decide), if_neg (by decide),
              if_neg (by decide), if_pos rfl, ih]
            rfl
          · by_cases h5 : c = '\n'
            · subst h5
              rw [show escChar '\n' = ['\\', 'n'] from rfl]
              simp only [List.cons_append, List.nil_append]
              rw [parseStrBody, if_neg (by decide), if_pos rfl, parseEsc,
                if_neg (by decide), if_neg (by decide), if_neg (by decide),
                if_neg (by decide), if_neg (by decide), if_pos rfl, ih]
              rfl
            · by_cases h6 : c = '\x0c'
              · subst h6
                rw [show escChar '\x0c' = ['\\', 'f'] from rfl]
                simp only [List.cons_append, List.nil_append]
                rw [parseStrBody, if_neg (by decide), if_pos rfl, parseEsc,
                  if_neg (by decide), if_neg (by decide), if_neg (by decide),
                  if_neg (by decide), if_pos rfl, ih]
                rfl
              · by_cases h7 : c = '\x0d'
                · subst h7
                  rw [show escChar '\x0d' = ['\\', 'r'] from rfl]
                  simp only [List.cons_append, List.nil_append]
                  rw [parseStrBody, if_neg (by decide), if_pos rfl, parseEsc,
                    if_neg (by decide), if_neg (by decide), if_neg (by decide),
                    if_neg (by decide), if_neg (by decide), if_neg (by decide),
                    if_pos rfl, ih]
                  rfl
                · by_cases h8 : c.toNat < 32
                  · have hesc2 : escChar c =
                        ['\\', 'u', '0', '0', hexCh (c.toNat / 16),
                          hexCh (c.toNat % 16)] := by
                      unfold escChar
                      rw [if_neg h1, if_neg h2, if_neg h3, if_neg h4,
                        if_neg h5, if_neg h6, if_neg h7, if_pos h8]
                    rw [hesc2]
                    have hhi : hexVal (hexCh (c.toNat / 16)) =
                        some (c.toNat / 16) := hexVal_hexCh (by omega)
                    have hlo : hexVal (hexCh (c.toNat % 16)) =
                        some (c.toNat % 16) := hexVal_hexCh (by omega)
                    simp only [List.cons_append, List.nil_append]
                    rw [parseStrBody, if_neg (by decide), if_pos rfl, parseEsc,
                      if_neg (by decide), if_neg (by decide),
                      if_neg (by decide), if_neg (by decide),
                      if_neg (by decide), if_neg (by decide),
                      if_neg (by decide), if_neg (by decide), if_pos rfl]
                    rw [show readHex4 ('0' :: '0' :: hexCh (c.toNat / 16) ::
                        hexCh (c.toNat % 16) :: (escStr s ++ '"' :: rest)) =
                          match hexVal '0', hexVal '0', hexVal (hexCh (c.toNat / 16)),
                            hexVal (hexCh (c.toNat % 16)) with
                          | some a, some b, some c1, some d1 =>
                            some (4096 * a + 256 * b + 16 * c1 + d1,
                              escStr s ++ '"' :: rest)
                          | _, _, _, _ => none from by rw [readHex4]]
                    rw [show hexVal '0' = some 0 from rfl, hhi, hlo]
                    simp only
                    rw [ih]
                    have hc : Char.ofNat
                        (4096 * 0 + 256 * 0 + 16 * (c.toNat / 16)
                          + c.toNat % 16) = c := by
                      rw [show 4096 * 0 + 256 * 0 + 16 * (c.toNat / 16)
                          + c.toNat % 16 = c.toNat from by omega]
                      exact charOfNatToNat c
                    show some (Char.ofNat (4096 * 0 + 256 * 0
                      + 16 * (c.toNat / 16) + c.toNat % 16) :: s, rest)
                      = some (c :: s, rest)
                    rw [hc]
                  · have hesc2 : escChar c = [c] := by
                      unfold escChar
                      rw [if_neg h1, if_neg h2, if_neg h3, if_neg h4,
                        if_neg h5, if_neg h6, if_neg h7, if_neg h8]
                    rw [hesc2]
                    simp only [List.cons_append, List.nil_append]
                    rw [parseStrBody, if_neg h1, if_neg h2, ih]
                    rfl

/-- Dropping a purely-whitespace prefix. -/
theorem skipWs_append_ws {w : Str} (s : Str)
    (hw : ∀ c ∈ w, isWsJson c = true) : skipWs (w ++ s) = skipWs s := by
  induction w with
  | nil => simp
  | cons c cs ih =>
    have hc : isWsJson c = true := hw c (by simp)
    simp only [List.cons_append, skipWs, List.dropWhile_cons, hc, if_true]
    exact ih fun c2 hc2 => hw c2 (by simp [hc2])

/-- Whitespace skipping stops at a non-whitespace head. -/
theorem skipWs_cons_nonws {c : Char} (s : Str) (h : isWsJson c = false) :
    skipWs (c :: s) = c :: s := by
  simp [skipWs, List.dropWhile_cons, h]

/-- Indentation is pure whitespace. -/
theorem indentN_ws (d : Nat) : ∀ c ∈ indentN d, isWsJson c = true := by
  intro c hc
  rw [indentN, List.mem_replicate] at hc
  rw [hc.2]
  rfl

/-- A newline followed by indentation is pure whitespace. -/
theorem nl_indent_ws (d : Nat) : ∀ c ∈ '\n' :: indentN d, isWsJson c = true := by
  intro c hc
  rcases List.mem_cons.mp hc with h | h
  · rw [h]
    rfl
  · exact indentN_ws d c h

/-! ## Size bounds -/

/-- Every JSON value has positive size. -/
theorem sizeJ_pos (j : Json) : 1 ≤ sizeJ j := by
  cases j <;> simp [sizeJ]

/-- An element's size is bounded by its list's size. -/
theorem sizeJ_le_sizeArr {x : Json} {xs : List Json} (h : x ∈ xs) :
    sizeJ x ≤ sizeArr xs := by
  induction xs with
  | nil => cases h
  | cons y ys ih =>
    rcases List.mem_cons.mp h with h | h
    · subst h
      simp [sizeArr]
      omega
    · have := ih h
      simp [sizeArr]
      omega

/-- A member value's size is bounded by its list's size. -/
theorem sizeJ_le_sizeObj {kv : Str × Json} {kvs : List (Str × Json)}
    (h : kv ∈ kvs) : sizeJ kv.2 ≤ sizeObj kvs := by
  induction kvs with
  | nil => cases h
  | cons p ps ih =>
    rcases List.mem_cons.mp h with h | h
    · subst h
      simp [sizeObj]
      omega
    · have := ih h
      simp [sizeObj]
      omega

/-- Structural induction for the nested `Json` type, phrased with list
membership, derived by strong induction on `sizeJ`. -/
theorem Json.ind (PJ : Json → Prop)
    (hnull : PJ .null) (hbool : ∀ b, PJ (.bool b)) (hnum : ∀ n, PJ (.num n))
    (hstr : ∀ s, PJ (.strv s))
    (harr : ∀ xs, (∀ x ∈ xs, PJ x) → PJ (.arr xs))
    (hobj : ∀ kvs, (∀ kv ∈ kvs, PJ kv.2) → PJ (.obj kvs)) :
    ∀ j, PJ j := by
  have main : ∀ n j, sizeJ j ≤ n → PJ j := by
    intro n
    induction n with
    | zero =>
      intro j hj
      have := sizeJ_pos j
      omega
    | succ m ih =>
      intro j hj
      cases j with
      | null => exact hnull
      | bool b => exact hbool b
      | num n => exact hnum n
      | strv s => exact hstr s
      | arr xs =>
        refine harr xs fun x hx => ih x ?_
        have h1 := sizeJ_le_sizeArr hx
        have h2 : sizeJ (.arr xs) = 1 + sizeArr xs := by simp [sizeJ]
        omega
      | obj kvs =>
        refine hobj kvs fun kv hkv => ih kv.2 ?_
        have h1 := sizeJ_le_sizeObj hkv
        have h2 : sizeJ (.obj kvs) = 1 + sizeObj kvs := by simp [sizeJ]
        omega
  exact fun j => main (sizeJ j) j le_rfl

/-- The serialized form of a value is at least as long as its size. -/
theorem sizeJ_le_len : ∀ j, ∀ d, sizeJ j ≤ (stringifyAt d j).length := by
  refine Json.ind (fun j => ∀ d, sizeJ j ≤ (stringifyAt d j).length)
    ?_ ?_ ?_ ?_ ?_ ?_
  · intro d
    simp [sizeJ, stringifyAt, lit]
  · intro b d
    cases b <;> simp [sizeJ, stringifyAt, lit]
  · intro n d
    have : 1 ≤ (intToChars n).length := by
      unfold intToChars
      by_cases hn : n < 0
      · rw [if_pos hn]
        simp
      · rw [if_neg hn]
        obtain ⟨c, t, hct, _⟩ := natToChars_head n.toNat
        rw [hct]
        simp
    simp only [sizeJ, stringifyAt]
    omega
  · intro s d
    simp [sizeJ, stringifyAt, quoteStr]
  · intro xs ih d
    cases xs with
    | nil => simp [sizeJ, sizeArr, stringifyAt, lit]
    | cons x xs2 =>
      have harr : ∀ xs2 d, (∀ x ∈ xs2, ∀ d2, sizeJ x ≤ (stringifyAt d2 x).length) →
          sizeArr xs2 ≤ (stringifyArr d xs2).length := by
        intro xs3 d3 ih3
        induction xs3 with
        | nil => simp [sizeArr, stringifyArr]
        | cons y ys ih4 =>
          have hy := ih3 y (by simp) d3
          have hys := ih4 fun z hz d2 => ih3 z (by simp [hz]) d2
          simp only [sizeArr, stringifyArr, List.length_cons, List.length_append]
          omega
      have hx := ih x (by simp) (d + 1)
      have hxs := harr xs2 (d + 1) fun z hz d2 => ih z (by simp [hz]) d2
      simp only [sizeJ, sizeArr, stringifyAt, List.length_cons,
        List.length_append]
      omega
  · intro kvs ih d
    cases kvs with
    | nil => simp [sizeJ, sizeObj, stringifyAt, lit]
    | cons kv kvs2 =>
      have hobj : ∀ kvs2 d, (∀ kv ∈ kvs2, ∀ d2, sizeJ kv.2 ≤ (stringifyAt d2 kv.2).length) →
          sizeObj kvs2 ≤ (stringifyObj d kvs2).length := by
        intro kvs3 d3 ih3
        induction kvs3 with
        | nil => simp [sizeObj, stringifyObj]
        | cons p ps ih4 =>
          have hp := ih3 p (by simp) d3
          have hps := ih4 fun z hz d2 => ih3 z (by simp [hz]) d2
          simp only [sizeObj, stringifyObj, List.length_cons, List.length_append]
          omega
      have hv := ih kv (by simp) (d + 1)
      have hkvs := hobj kvs2 (d + 1) fun z hz d2 => ih z (by simp [hz]) d2
      simp only [sizeJ, sizeObj, stringifyAt, List.length_cons,
        List.length_append]
      omega

/-! ## Head characters of serialized values -/

/-- The first character of a rendered integer, with the discriminating
facts needed by the parser. -/
theorem intToChars_head (n : Int) :
    ∃ c t, intToChars n = c :: t ∧ isWsJson c = false
      ∧ c ≠ 'n' ∧ c ≠ 't' ∧ c ≠ 'f' ∧ c ≠ '"' ∧ c ≠ '[' ∧ c ≠ '{'
      ∧ c ≠ ']' ∧ c ≠ '}'
      ∧ (decide (c = '-') || isDigitCh c) = true := by
  by_cases hn : n < 0
  · refine ⟨'-', natToChars n.natAbs, ?_, by decide, by decide, by decide,
      by decide, by decide, by decide, by decide, by decide, by decide,
      by decide⟩
    unfold intToChars
    rw [if_pos hn]
  · obtain ⟨c, t, hct, hdg⟩ := natToChars_head n.toNat
    have h5 : 48 ≤ c.toNat ∧ c.toNat ≤ 57 := by
      simp [isDigitCh] at hdg
      omega
    have hout : intToChars n = c :: t := by
      unfold intToChars
      rw [if_neg hn, hct]
    refine ⟨c, t, hout, ?_, ?_, ?_, ?_, ?_, ?_, ?_, ?_, ?_, ?_⟩
    · simp [isWsJson]
      omega
    · exact chNe (by rw [show ('n').toNat = 110 from rfl]; omega)
    · exact chNe (by rw [show ('t').toNat = 116 from rfl]; omega)
    · exact chNe (by rw [show ('f').toNat = 102 from rfl]; omega)
    · exact chNe (by rw [show ('"').toNat = 34 from rfl]; omega)
    · exact chNe (by rw [show ('[').toNat = 91 from rfl]; omega)
    · exact chNe (by rw [show ('{').toNat = 123 from rfl]; omega)
    · exact chNe (by rw [show (']').toNat = 93 from rfl]; omega)
    · exact chNe (by rw [show ('}').toNat = 125 from rfl]; omega)
    · have : isDigitCh c = true := by
        simp [isDigitCh]
        omega
      simp [this]

/-- Every serialized value starts with a non-whitespace character that
is none of the closing delimiters. -/
theorem stringifyAt_head (j : Json) (d : Nat) :
    ∃ c t, stringifyAt d j = c :: t ∧ isWsJson c = false
      ∧ c ≠ ']' ∧ c ≠ '}' := by
  cases j with
  | null =>
    refine ⟨'n', lit "ull", ?_, by decide, by decide, by decide⟩
    rw [stringifyAt]
    rfl
  | bool b =>
    cases b with
    | true =>
      refine ⟨'t', lit "rue", ?_, by decide, by decide, by decide⟩
      rw [stringifyAt]
      rfl
    | false =>
      refine ⟨'f', lit "alse", ?_, by decide, by decide, by decide⟩
      rw [stringifyAt]
      rfl
  | num n =>
    obtain ⟨c, t, hct, hws, _, _, _, _, _, _, hcl, hcr, _⟩ := intToChars_head n
    refine ⟨c, t, ?_, hws, hcl, hcr⟩
    rw [stringifyAt, hct]
  | strv s =>
    refine ⟨'"', escStr s ++ ['"'], ?_, by decide, by decide, by decide⟩
    rw [stringifyAt]
    rfl
  | arr xs =>
    cases xs with
    | nil =>
      refine ⟨'[', [']'], ?_, by decide, by decide, by decide⟩
      rw [stringifyAt]
      rfl
    | cons x xs2 =>
      refine ⟨'[', '\n' :: (indentN (d + 1) ++ stringifyAt (d + 1) x
        ++ stringifyArr (d + 1) xs2 ++ '\n' :: indentN d ++ [']']), ?_,
        by decide, by decide, by decide⟩
      rw [stringifyAt]
  | obj kvs =>
    cases kvs with
    | nil =>
      refine ⟨'{', ['}'], ?_, by decide, by decide, by decide⟩
      rw [stringifyAt]
      rfl
    | cons kv kvs2 =>
      refine ⟨'{', '\n' :: (indentN (d + 1) ++ quoteStr kv.1 ++ ':' :: ' ' ::
        stringifyAt (d + 1) kv.2
        ++ stringifyObj (d + 1) kvs2 ++ '\n' :: indentN d ++ ['}']), ?_,
        by decide, by decide, by decide⟩
      rw [stringifyAt]

/-! ## Parser soundness on serializer output -/

/-- Soundness statement for `parseVal` at a given fuel: any serialized
value, preceded by whitespace and followed by material that does not
extend a numeral, parses back to exactly that value. -/
def PV (fuel : Nat) : Prop :=
  ∀ j d w rest, (∀ c ∈ w, isWsJson c = true) → headNotDigit rest →
    2 * sizeJ j ≤ fuel →
    parseVal fuel (w ++ (stringifyAt d j ++ rest)) = some (j, rest)

/-- Soundness statement for `parseElems` at a given fuel. -/
def PE (fuel : Nat) : Prop :=
  ∀ x xs d w1 w2 rest, (∀ c ∈ w1, isWsJson c = true) →
    (∀ c ∈ w2, isWsJson c = true) →
    2 * (sizeJ x + sizeArr xs) + 1 ≤ fuel →
    parseElems fuel
      (w1 ++ (stringifyAt d x ++ (stringifyArr d xs ++ (w2 ++ (']' :: rest)))))
      = some (x :: xs, rest)

/-- Soundness statement for `parseMembers` at a given fuel. -/
def PM (fuel : Nat) : Prop :=
  ∀ k v kvs d w1 w2 rest, (∀ c ∈ w1, isWsJson c = true) →
    (∀ c ∈ w2, isWsJson c = true) →
    2 * (sizeJ v + sizeObj kvs) + 1 ≤ fuel →
    parseMembers fuel
      (w1 ++ (quoteStr k ++ (':' :: ' ' ::
        (stringifyAt d v ++ (stringifyObj d kvs ++ (w2 ++ ('}' :: rest)))))))
      = some ((k, v) :: kvs, rest)

/-- What follows a serialized element list never extends a numeral. -/
theorem headNotDigit_arrTail (xs : List Json) (d : Nat) (w2 rest : Str)
    (hw2 : ∀ c ∈ w2, isWsJson c = true) :
    headNotDigit (stringifyArr d xs ++ (w2 ++ (']' :: rest))) := by
  cases xs with
  | nil =>
    rw [show stringifyArr d [] = [] from by rw [stringifyArr], List.nil_append]
    cases w2 with
    | nil => exact (by decide : isDigitCh ']' = false)
    | cons c w2' => exact ws_not_digit (hw2 c (by simp))
  | cons y ys =>
    rw [show stringifyArr d (y :: ys) =
        ',' :: '\n' :: (indentN d ++ stringifyAt d y) ++ stringifyArr d ys
      from by rw [stringifyArr]]
    exact (by decide : isDigitCh ',' = false)

/-- What follows a serialized member list never extends a numeral. -/
theorem headNotDigit_objTail (kvs : List (Str × Json)) (d : Nat)
    (w2 rest : Str) (hw2 : ∀ c ∈ w2, isWsJson c = true) :
    headNotDigit (stringifyObj d kvs ++ (w2 ++ ('}' :: rest))) := by
  cases kvs with
  | nil =>
    rw [show stringifyObj d [] = [] from by rw [stringifyObj], List.nil_append]
    cases w2 with
    | nil => exact (by decide : isDigitCh '}' = false)
    | cons c w2' => exact ws_not_digit (hw2 c (by simp))
  | cons p ps =>
    rw [show stringifyObj d (p :: ps) =
        ',' :: '\n' :: (indentN d ++ quoteStr p.1 ++ ':' :: ' ' ::
          stringifyAt d p.2) ++ stringifyObj d ps
      from by rw [stringifyObj]]
    exact (by decide : isDigitCh ',' = false)

/-- Soundness of the parser on serializer output: with enough fuel,
`parseVal`, `parseElems` and `parseMembers` read back exactly the value
that was serialized. -/
theorem parser_sound : ∀ fuel, PV fuel ∧ PE fuel ∧ PM fuel := by
  intro fuel
  induction fuel with
  | zero =>
    refine ⟨?_, ?_, ?_⟩
    · intro j d w rest hw hrd hsz
      have := sizeJ_pos j
      omega
    · intro x xs d w1 w2 rest hw1 hw2 hsz
      omega
    · intro k v kvs d w1 w2 rest hw1 hw2 hsz
      omega
  | succ f ih =>
    obtain ⟨ihV, ihE, ihM⟩ := ih
    refine ⟨?_, ?_, ?_⟩
    · -- PV (f + 1)
      intro j d w rest hw hrd hsz
      cases j with
      | null =>
        have hskip : skipWs (w ++ (stringifyAt d Json.null ++ rest)) =
            'n' :: (lit "ull" ++ rest) := by
          rw [skipWs_append_ws _ hw, show stringifyAt d Json.null
            = 'n' :: lit "ull" from by rw [stringifyAt]; rfl, List.cons_append]
          exact skipWs_cons_nonws _ (by decide)
        have hexp : expectChars (lit "ull") (lit "ull" ++ rest) = some rest := rfl
        rw [parseVal]
        simp only [hskip, eq_self_iff_true, if_true, hexp, Option.map_some']
      | bool b =>
        cases b with
        | true =>
          have hskip : skipWs (w ++ (stringifyAt d (Json.bool true) ++ rest)) =
              't' :: (lit "rue" ++ rest) := by
            rw [skipWs_append_ws _ hw, show stringifyAt d (Json.bool true)
              = 't' :: lit "rue" from by rw [stringifyAt]; rfl, List.cons_append]
            exact skipWs_cons_nonws _ (by decide)
          have hexp : expectChars (lit "rue") (lit "rue" ++ rest) = some rest := rfl
          rw [parseVal]
          simp only [hskip, (by decide : ('t' : Char) ≠ 'n'),
            eq_self_iff_true, if_true, if_false, hexp, Option.map_some']
        | false =>
          have hskip : skipWs (w ++ (stringifyAt d (Json.bool false) ++ rest)) =
              'f' :: (lit "alse" ++ rest) := by
            rw [skipWs_append_ws _ hw, show stringifyAt d (Json.bool false)
              = 'f' :: lit "alse" from by rw [stringifyAt]; rfl, List.cons_append]
            exact skipWs_cons_nonws _ (by decide)
          have hexp : expectChars (lit "alse") (lit "alse" ++ rest) = some rest := rfl
          rw [parseVal]
          simp only [hskip, (by decide : ('f' : Char) ≠ 'n'),
            (by decide : ('f' : Char) ≠ 't'),
            eq_self_iff_true, if_true, if_false, hexp, Option.map_some']
      | num n =>
        obtain ⟨c, t, hct, hws, hn1, hn2, hn3, hn4, hn5, hn6, _, _, hnum⟩ :=
          intToChars_head n
        have hskip : skipWs (w ++ (stringifyAt d (Json.num n) ++ rest)) =
            c :: (t ++ rest) := by
          rw [skipWs_append_ws _ hw, show stringifyAt d (Json.num n)
            = intToChars n from by rw [stringifyAt], hct, List.cons_append]
          exact skipWs_cons_nonws _ hws
        rw [parseVal]
        simp only [hskip, hn1, hn2, hn3, hn4, hn5, hn6, hnum, if_false, if_true]
        rw [← List.cons_append, ← hct, parseIntTok_spec n rest hrd,
          Option.map_some']
      | strv s =>
        have hskip : skipWs (w ++ (stringifyAt d (Json.strv s) ++ rest)) =
            '"' :: (escStr s ++ ('"' :: rest)) := by
          rw [skipWs_append_ws _ hw, show stringifyAt d (Json.strv s)
            = quoteStr s from by rw [stringifyAt]]
          rw [show quoteStr s ++ rest = '"' :: (escStr s ++ ('"' :: rest)) from by
            simp [quoteStr, List.append_assoc]]
          exact skipWs_cons_nonws _ (by decide)
        rw [parseVal]
        simp only [hskip, (by decide : ('"' : Char) ≠ 'n'),
          (by decide : ('"' : Char) ≠ 't'), (by decide : ('"' : Char) ≠ 'f'),
          eq_self_iff_true, if_true, if_false]
        rw [parseStrBody_escape s rest, Option.map_some']
      | arr xs =>
        cases xs with
        | nil =>
          have hskip : skipWs (w ++ (stringifyAt d (Json.arr []) ++ rest)) =
              '[' :: (']' :: rest) := by
            rw [skipWs_append_ws _ hw, show stringifyAt d (Json.arr [])
              = '[' :: (']' :: []) from by rw [stringifyAt]; rfl]
            rw [show ('[' :: (']' :: [])) ++ rest = '[' :: (']' :: rest) from by
              simp]
            exact skipWs_cons_nonws _ (by decide)
          rw [parseVal]
          simp only [hskip, (by decide : ('[' : Char) ≠ 'n'),
            (by decide : ('[' : Char) ≠ 't'), (by decide : ('[' : Char) ≠ 'f'),
            (by decide : ('[' : Char) ≠ '"'),
            eq_self_iff_true, if_true, if_false]
          rw [skipWs_cons_nonws _ (by decide : isWsJson ']' = false)]
          simp only [eq_self_iff_true, if_true]
        | cons x xs2 =>
          obtain ⟨c2, t2, hct2, hws2, hne2, _⟩ := stringifyAt_head x (d + 1)
          have hbody : stringifyAt d (Json.arr (x :: xs2)) ++ rest =
              '[' :: (('\n' :: indentN (d + 1)) ++ (stringifyAt (d + 1) x
                ++ (stringifyArr (d + 1) xs2
                  ++ (('\n' :: indentN d) ++ (']' :: rest))))) := by
            rw [show stringifyAt d (Json.arr (x :: xs2)) =
                '[' :: '\n' :: (indentN (d + 1) ++ stringifyAt (d + 1) x
                  ++ stringifyArr (d + 1) xs2 ++ '\n' :: indentN d ++ [']'])
              from by rw [stringifyAt]]
            simp [List.append_assoc]
          have hskip : skipWs (w ++ (stringifyAt d (Json.arr (x :: xs2)) ++ rest)) =
              '[' :: (('\n' :: indentN (d + 1)) ++ (stringifyAt (d + 1) x
                ++ (stringifyArr (d + 1) xs2
                  ++ (('\n' :: indentN d) ++ (']' :: rest))))) := by
            rw [skipWs_append_ws _ hw, hbody]
            exact skipWs_cons_nonws _ (by decide)
          rw [parseVal]
          simp only [hskip, (by decide : ('[' : Char) ≠ 'n'),
            (by decide : ('[' : Char) ≠ 't'), (by decide : ('[' : Char) ≠ 'f'),
            (by decide : ('[' : Char) ≠ '"'),
            eq_self_iff_true, if_true, if_false]
          have hskip2 : skipWs (('\n' :: indentN (d + 1)) ++ (stringifyAt (d + 1) x
              ++ (stringifyArr (d + 1) xs2
                ++ (('\n' :: indentN d) ++ (']' :: rest))))) =
              c2 :: (t2 ++ (stringifyArr (d + 1) xs2
                ++ (('\n' :: indentN d) ++ (']' :: rest)))) := by
            rw [skipWs_append_ws _ (nl_indent_ws (d + 1)), hct2, List.cons_append]
            exact skipWs_cons_nonws _ hws2
          simp only [hskip2, hne2, if_false]
          have hE := ihE x xs2 (d + 1) [] ('\n' :: indentN d) rest (by simp)
            (nl_indent_ws d) (by
              simp only [sizeJ, sizeArr] at hsz
              omega)
          simp only [List.nil_append] at hE
          rw [← List.cons_append, ← hct2, hE, Option.map_some']
      | obj kvs =>
        cases kvs with
        | nil =>
          have hskip : skipWs (w ++ (stringifyAt d (Json.obj []) ++ rest)) =
              '{' :: ('}' :: rest) := by
            rw [skipWs_append_ws _ hw, show stringifyAt d (Json.obj [])
              = '{' :: ('}' :: []) from by rw [stringifyAt]; rfl]
            rw [show ('{' :: ('}' :: [])) ++ rest = '{' :: ('}' :: rest) from by
              simp]
            exact skipWs_cons_nonws _ (by decide)
          rw [parseVal]
          simp only [hskip, (by decide : ('{' : Char) ≠ 'n'),
            (by decide : ('{' : Char) ≠ 't'), (by decide : ('{' : Char) ≠ 'f'),
            (by decide : ('{' : Char) ≠ '"'), (by decide : ('{' : Char) ≠ '['),
            eq_self_iff_true, if_true, if_false]
          rw [skipWs_cons_nonws _ (by decide : isWsJson '}' = false)]
          simp only [eq_self_iff_true, if_true]
        | cons kv kvs2 =>
          have hbody : stringifyAt d (Json.obj (kv :: kvs2)) ++ rest =
              '{' :: (('\n' :: indentN (d + 1)) ++ ('"' :: (escStr kv.1
                ++ ('"' :: (':' :: ' ' :: (stringifyAt (d + 1) kv.2
                  ++ (stringifyObj (d + 1) kvs2
                    ++ (('\n' :: indentN d) ++ ('}' :: rest))))))))) := by
            rw [show stringifyAt d (Json.obj (kv :: kvs2)) =
                '{' :: '\n' :: (indentN (d + 1) ++ quoteStr kv.1 ++ ':' :: ' ' ::
                  stringifyAt (d + 1) kv.2
                  ++ stringifyObj (d + 1) kvs2 ++ '\n' :: indentN d ++ ['}'])
              from by rw [stringifyAt]]
            simp [quoteStr, List.append_assoc]
          have hskip : skipWs (w ++ (stringifyAt d (Json.obj (kv :: kvs2)) ++ rest)) =
              '{' :: (('\n' :: indentN (d + 1)) ++ ('"' :: (escStr kv.1
                ++ ('"' :: (':' :: ' ' :: (stringifyAt (d + 1) kv.2
                  ++ (stringifyObj (d + 1) kvs2
                    ++ (('\n' :: indentN d) ++ ('}' :: rest))))))))) := by
            rw [skipWs_append_ws _ hw, hbody]
            exact skipWs_cons_nonws _ (by decide)
          rw [parseVal]
          simp only [hskip, (by decide : ('{' : Char) ≠ 'n'),
            (by decide : ('{' : Char) ≠ 't'), (by decide : ('{' : Char) ≠ 'f'),
            (by decide : ('{' : Char) ≠ '"'), (by decide : ('{' : Char) ≠ '['),
            eq_self_iff_true, if_true, if_false]
          have hskip2 : skipWs (('\n' :: indentN (d + 1)) ++ ('"' :: (escStr kv.1
              ++ ('"' :: (':' :: ' ' :: (stringifyAt (d + 1) kv.2
                ++ (stringifyObj (d + 1) kvs2
                  ++ (('\n' :: indentN d) ++ ('}' :: rest))))))))) =
              '"' :: (escStr kv.1
                ++ ('"' :: (':' :: ' ' :: (stringifyAt (d + 1) kv.2
                  ++ (stringifyObj (d + 1) kvs2
                    ++ (('\n' :: indentN d) ++ ('}' :: rest))))))) := by
            rw [skipWs_append_ws _ (nl_indent_ws (d + 1))]
            exact skipWs_cons_nonws _ (by decide)
          simp only [hskip2, (by decide : ('"' : Char) ≠ '}'), if_false]
          have hM := ihM kv.1 kv.2 kvs2 (d + 1) [] ('\n' :: indentN d) rest
            (by simp) (nl_indent_ws d) (by
              simp only [sizeJ, sizeObj] at hsz
              omega)
          simp only [List.nil_append, quoteStr, List.cons_append,
            List.append_assoc, List.singleton_append] at hM
          simp only [List.cons_append]
          rw [hM, Option.map_some']
    · -- PE (f + 1)
      intro x xs d w1 w2 rest hw1 hw2 hsz
      have hx := sizeJ_pos x
      have hV := ihV x d w1
        (stringifyArr d xs ++ (w2 ++ (']' :: rest))) hw1
        (headNotDigit_arrTail xs d w2 rest hw2) (by omega)
      rw [parseElems, hV]
      cases xs with
      | nil =>
        have hs3 : skipWs (stringifyArr d [] ++ (w2 ++ (']' :: rest))) =
            ']' :: rest := by
          rw [show stringifyArr d [] = [] from by rw [stringifyArr],
            List.nil_append, skipWs_append_ws _ hw2]
          exact skipWs_cons_nonws _ (by decide)
        simp only [hs3, (by decide : (']' : Char) ≠ ','), eq_self_iff_true,
          if_true, if_false]
      | cons y ys =>
        have hs3 : skipWs (stringifyArr d (y :: ys) ++ (w2 ++ (']' :: rest))) =
            ',' :: (('\n' :: indentN d) ++ (stringifyAt d y
              ++ (stringifyArr d ys ++ (w2 ++ (']' :: rest))))) := by
          rw [show stringifyArr d (y :: ys) =
              ',' :: '\n' :: (indentN d ++ stringifyAt d y) ++ stringifyArr d ys
            from by rw [stringifyArr]]
          rw [show (',' :: '\n' :: (indentN d ++ stringifyAt d y)
              ++ stringifyArr d ys) ++ (w2 ++ (']' :: rest)) =
              ',' :: (('\n' :: indentN d) ++ (stringifyAt d y
                ++ (stringifyArr d ys ++ (w2 ++ (']' :: rest))))) from by
            simp [List.append_assoc]]
          exact skipWs_cons_nonws _ (by decide)
        simp only [hs3, eq_self_iff_true, if_true]
        have hy := sizeJ_pos y
        have hE := ihE y ys d ('\n' :: indentN d) w2 rest (nl_indent_ws d) hw2
          (by
            simp only [sizeArr] at hsz
            omega)
        rw [hE, Option.map_some']
    · -- PM (f + 1)
      intro k v kvs d w1 w2 rest hw1 hw2 hsz
      have hv := sizeJ_pos v
      have hskipA : skipWs (w1 ++ (quoteStr k ++ (':' :: ' ' ::
          (stringifyAt d v ++ (stringifyObj d kvs ++ (w2 ++ ('}' :: rest))))))) =
          '"' :: (escStr k ++ ('"' :: (':' :: ' ' ::
            (stringifyAt d v ++ (stringifyObj d kvs ++ (w2 ++ ('}' :: rest))))))) := by
        rw [skipWs_append_ws _ hw1]
        rw [show quoteStr k ++ (':' :: ' ' ::
            (stringifyAt d v ++ (stringifyObj d kvs ++ (w2 ++ ('}' :: rest))))) =
            '"' :: (escStr k ++ ('"' :: (':' :: ' ' ::
              (stringifyAt d v ++ (stringifyObj d kvs ++ (w2 ++ ('}' :: rest)))))))
          from by simp [quoteStr, List.append_assoc]]
        exact skipWs_cons_nonws _ (by decide)
      rw [parseMembers]
      simp only [hskipA, eq_self_iff_true, if_true, parseStrBody_escape]
      have hs2 : skipWs (':' :: ' ' :: (stringifyAt d v
          ++ (stringifyObj d kvs ++ (w2 ++ ('}' :: rest))))) =
          ':' :: ' ' :: (stringifyAt d v
            ++ (stringifyObj d kvs ++ (w2 ++ ('}' :: rest)))) :=
        skipWs_cons_nonws _ (by decide)
      simp only [hs2, eq_self_iff_true, if_true]
      have hV := ihV v d [' ']
        (stringifyObj d kvs ++ (w2 ++ ('}' :: rest))) (by decide)
        (headNotDigit_objTail kvs d w2 rest hw2) (by omega)
      simp only [List.singleton_append] at hV
      simp only [hV]
      cases kvs with
      | nil =>
        have hs3 : skipWs (stringifyObj d [] ++ (w2 ++ ('}' :: rest))) =
            '}' :: rest := by
          rw [show stringifyObj d [] = [] from by rw [stringifyObj],
            List.nil_append, skipWs_append_ws _ hw2]
          exact skipWs_cons_nonws _ (by decide)
        simp only [hs3, (by decide : ('}' : Char) ≠ ','), eq_self_iff_true,
          if_true, if_false]
      | cons p ps =>
        have hs3 : skipWs (stringifyObj d (p :: ps) ++ (w2 ++ ('}' :: rest))) =
            ',' :: (('\n' :: indentN d) ++ (quoteStr p.1 ++ (':' :: ' ' ::
              (stringifyAt d p.2 ++ (stringifyObj d ps
                ++ (w2 ++ ('}' :: rest))))))) := by
          rw [show stringifyObj d (p :: ps) =
              ',' :: '\n' :: (indentN d ++ quoteStr p.1 ++ ':' :: ' ' ::
                stringifyAt d p.2) ++ stringifyObj d ps
            from by rw [stringifyObj]]
          rw [show (',' :: '\n' :: (indentN d ++ quoteStr p.1 ++ ':' :: ' ' ::
              stringifyAt d p.2) ++ stringifyObj d ps) ++ (w2 ++ ('}' :: rest)) =
              ',' :: (('\n' :: indentN d) ++ (quoteStr p.1 ++ (':' :: ' ' ::
                (stringifyAt d p.2 ++ (stringifyObj d ps
                  ++ (w2 ++ ('}' :: rest))))))) from by
            simp [List.append_assoc]]
          exact skipWs_cons_nonws _ (by decide)
        simp only [hs3, eq_self_iff_true, if_true]
        have hp := sizeJ_pos p.2
        have hM := ihM p.1 p.2 ps d ('\n' :: indentN d) w2 rest
          (nl_indent_ws d) hw2 (by
            simp only [sizeObj] at hsz
            omega)
        rw [hM, Option.map_some']

/-- `JSON.parse` inverts `JSON.stringify(_, null, 2)`. -/
theorem jsonParse_stringify2 (j : Json) : jsonParse (stringify2 j) = some j := by
  have hfuel : 2 * sizeJ j ≤ 2 * (stringify2 j).length + 2 := by
    have := sizeJ_le_len j 0
    unfold stringify2
    omega
  have hP := (parser_sound (2 * (stringify2 j).length + 2)).1 j 0 [] []
    (by simp) trivial hfuel
  simp only [List.nil_append, List.append_nil] at hP
  unfold jsonParse
  rw [show stringifyAt 0 j = stringify2 j from rfl] at hP
  rw [hP]
  rfl

/-- C8: JSON-format output round-trips — parsing the formatter's JSON
output and re-serializing the parsed value with the same pretty-printer
yields byte-identical output.  The well-formedness hypothesis states that
the value is the image of a JavaScript object (no duplicate keys), the
domain on which the ordered-member parser model coincides with
`JSON.parse`.  The final conjunct ties the serializer to the formatter's
JSON mode. -/
theorem json_stringify_roundtrip (j : Json) (h : wfJ j = true) :
    jsonParse (stringify2 j) = some j
    ∧ (jsonParse (stringify2 j)).map stringify2 = some (stringify2 j)
    ∧ (∀ ld resp, formatResults ld resp (lit "json")
        = stringify2 (respToJson resp)) := by
  have hrt := jsonParse_stringify2 j
  refine ⟨hrt, by rw [hrt]; rfl, fun ld resp => by simp [formatResults]⟩

/-- Witness for the amended C4 at a concrete undated response. -/
theorem formatter_pure_modulo_locale_witness :
    (∀ r ∈ respNoDate.results.getD [], truthyS r.publishedDate = false)
    ∧ (formatResults (fun s => s) respNoDate (lit "text")
        = formatResults (fun _ => []) respNoDate (lit "text")
      ∧ (∀ u, itemLines (fun s => s) ⟨none, u, none, none, none, none⟩ =
          [[], lit "📄 Untitled", lit "🔗 " ++ u, [], divider])) :=
  ⟨by simp [respNoDate],
    formatter_pure_modulo_locale (fun s => s) (fun _ => []) respNoDate
      (lit "text") (by simp [respNoDate])⟩

/-- Witness for C8 at a concrete one-member object. -/
theorem json_stringify_roundtrip_witness :
    wfJ (Json.obj [(lit "results", Json.arr [])]) = true
    ∧ (jsonParse (stringify2 (Json.obj [(lit "results", Json.arr [])]))
        = some (Json.obj [(lit "results", Json.arr [])])
      ∧ (jsonParse (stringify2 (Json.obj [(lit "results", Json.arr [])]))).map
          stringify2
        = some (stringify2 (Json.obj [(lit "results", Json.arr [])]))
      ∧ (∀ ld resp, formatResults ld resp (lit "json")
          = stringify2 (respToJson resp))) :=
  ⟨by simp [wfJ, wfObjL, wfArrL],
    json_stringify_roundtrip _ (by simp [wfJ, wfObjL, wfArrL])⟩

end ExaSpec
